import Mathlib

/-!
Verification of the monthly-override recurrence model of the Ordenate
budget tracker (`App.py`).

The Python code is shallowly embedded: pandas DataFrames become lists of
records, `datetime.date` becomes a record of naturals compared
lexicographically, monetary floats become rationals, NaN/None cells become
`Option`, and `_parse_date` becomes the identity on already-parsed
`Option PyDate` fields (a `none` field models an absent or unparsable
stored date).
-/

namespace Ordenate

/-- Embedding of Python `datetime.date`: year, month, day as naturals.
Dates built by the program always have `1 ≤ month ≤ 12`. -/
structure PyDate where
  year : Nat
  month : Nat
  day : Nat
deriving DecidableEq

/-- Python date `<`: lexicographic on (year, month, day). -/
def dateLt (a b : PyDate) : Prop :=
  a.year < b.year ∨ (a.year = b.year ∧ (a.month < b.month ∨ (a.month = b.month ∧ a.day < b.day)))

instance instDecDateLt (a b : PyDate) : Decidable (dateLt a b) := by
  unfold dateLt
  exact inferInstance

/-- Python date `<=`: lexicographic. -/
def dateLe (a b : PyDate) : Prop :=
  dateLt a b ∨ a = b

instance instDecDateLe (a b : PyDate) : Decidable (dateLe a b) := by
  unfold dateLe
  exact inferInstance

/-- One step of the month-increment at the bottom of `_month_range`'s loop:
December rolls over to January of the next year. -/
def monthStep (y m : Nat) : Nat × Nat :=
  if m = 12 then (y + 1, 1) else (y, m + 1)

/-- The loop body of `_month_range`, with the loop condition
`current <= end_month` compiled to an iteration count: `monthsFrom y m n`
lists `n` consecutive months starting at `(y, m)`. -/
def monthsFrom : Nat → Nat → Nat → List (Nat × Nat)
  | _, _, 0 => []
  | y, m, Nat.succ n => (y, m) :: monthsFrom (monthStep y m).1 (monthStep y m).2 n

/-- `_month_range(start, end)` (App.py:292) on two present dates: swap if
`end < start`, truncate to first-of-month, then list every month up to and
including the end month.  The iteration count `ei + 1 - si` over month
indices `12*year + month` reproduces the `current <= end_month` loop
condition for the valid months (1..12) that parsed dates carry. -/
def month_range (s e : PyDate) : List (Nat × Nat) :=
  let p := if dateLt e s then (e, s) else (s, e)
  monthsFrom p.1.year p.1.month
    (12 * p.2.year + p.2.month + 1 - (12 * p.1.year + p.1.month))

/-- `_months_for_row` (App.py:309): expand a recurring row into its due
(year, month) periods.  The `fecha_*` arguments stand for the results of
`_parse_date` on the stored cells (`none` = absent/unparsable).  An absent
bound yields an empty range (`_month_range` returns `[]` when either
argument is `None`); `Anual` keeps only the anchor's month, and an `Anual`
row with no parseable anchor has no due periods. -/
def months_for_row (periodicidad : String) (fecha_pago fecha_inicio fecha_termino : Option PyDate) :
    List (Nat × Nat) :=
  let months :=
    match fecha_inicio, fecha_termino with
    | some s, some e => month_range s e
    | _, _ => []
  if periodicidad = "Anual" then
    match fecha_pago with
    | some pago => months.filter (fun ym => ym.2 == pago.month)
    | none => []
  else months

/-- `_is_active_for_month` (App.py:257): window-overlap test against the
fixed period `[day 1, day 28]` of the queried month, defaulting a missing
start to day 1 and a missing end to day 28 of that same month. -/
def is_active_for_month (fecha_inicio fecha_termino : Option PyDate) (year month : Nat) : Bool :=
  let inicio := fecha_inicio.getD ⟨year, month, 1⟩
  let termino := fecha_termino.getD ⟨year, month, 28⟩
  decide (dateLe inicio ⟨year, month, 28⟩) && decide (dateLe ⟨year, month, 1⟩ termino)

/-! ### Helper lemmas on the month enumeration -/

theorem monthStep_idx (y m : Nat) :
    12 * (monthStep y m).1 + (monthStep y m).2 = 12 * y + m + 1 := by
  unfold monthStep
  split
  all_goals simp_all
  all_goals omega

theorem monthStep_valid (y m : Nat) (h1 : 1 ≤ m) (h2 : m ≤ 12) :
    1 ≤ (monthStep y m).2 ∧ (monthStep y m).2 ≤ 12 := by
  unfold monthStep
  split
  all_goals simp_all
  all_goals omega

theorem monthsFrom_mem (n : Nat) : ∀ y m : Nat, 1 ≤ m → m ≤ 12 → ∀ a b : Nat,
    ((a, b) ∈ monthsFrom y m n ↔
      1 ≤ b ∧ b ≤ 12 ∧ 12 * y + m ≤ 12 * a + b ∧ 12 * a + b < 12 * y + m + n) := by
  induction n with
  | zero =>
    intro y m _ _ a b
    simp [monthsFrom]
    try omega
  | succ k ih =>
    intro y m h1 h2 a b
    have hstep := monthStep_idx y m
    have hv := monthStep_valid y m h1 h2
    simp only [monthsFrom, List.mem_cons]
    rw [ih (monthStep y m).1 (monthStep y m).2 hv.1 hv.2 a b]
    constructor
    · rintro (heq | hmem)
      · have ha : a = y := by
          have := congrArg Prod.fst heq
          simpa using this
        have hb : b = m := by
          have := congrArg Prod.snd heq
          simpa using this
        omega
      · omega
    · intro hb
      by_cases hidx : 12 * a + b = 12 * y + m
      · left
        have ha : a = y := by omega
        have hbm : b = m := by omega
        rw [ha, hbm]
      · right
        omega

theorem monthsFrom_chain (n : Nat) : ∀ y m : Nat,
    List.Chain' (fun p q : Nat × Nat => 12 * p.1 + p.2 < 12 * q.1 + q.2) (monthsFrom y m n) := by
  induction n with
  | zero =>
    intro y m
    simp [monthsFrom]
  | succ k ih =>
    intro y m
    cases k with
    | zero =>
      simp [monthsFrom]
    | succ j =>
      have hstep := monthStep_idx y m
      refine List.Chain'.cons ?_ (ih (monthStep y m).1 (monthStep y m).2)
      omega

theorem dateLe_not_lt (s e : PyDate) (h : dateLe s e) : ¬ dateLt e s := by
  unfold dateLe dateLt at *
  rcases s with ⟨sy, sm, sd⟩
  rcases e with ⟨ey, em, ed⟩
  rcases h with h | h
  all_goals simp_all
  all_goals omega

theorem dateLe_month_idx (s e : PyDate) (hs1 : 1 ≤ s.month) (hs2 : s.month ≤ 12)
    (he1 : 1 ≤ e.month) (he2 : e.month ≤ 12) (h : dateLe s e) :
    12 * s.year + s.month ≤ 12 * e.year + e.month := by
  unfold dateLe dateLt at h
  rcases h with h | h
  · omega
  · subst h
    omega

theorem month_range_of_le (s e : PyDate) (h : dateLe s e) :
    month_range s e =
      monthsFrom s.year s.month (12 * e.year + e.month + 1 - (12 * s.year + s.month)) := by
  unfold month_range
  have hnot := dateLe_not_lt s e h
  simp [hnot]

theorem month_range_mem (s e : PyDate) (hs1 : 1 ≤ s.month) (hs2 : s.month ≤ 12)
    (he1 : 1 ≤ e.month) (he2 : e.month ≤ 12) (h : dateLe s e) (a b : Nat) :
    ((a, b) ∈ month_range s e ↔
      1 ≤ b ∧ b ≤ 12 ∧ 12 * s.year + s.month ≤ 12 * a + b ∧
        12 * a + b ≤ 12 * e.year + e.month) := by
  rw [month_range_of_le s e h]
  rw [monthsFrom_mem _ s.year s.month hs1 hs2 a b]
  have := dateLe_month_idx s e hs1 hs2 he1 he2 h
  omega

theorem month_range_chain (s e : PyDate) :
    List.Chain' (fun p q : Nat × Nat => 12 * p.1 + p.2 < 12 * q.1 + q.2) (month_range s e) := by
  unfold month_range
  exact monthsFrom_chain _ _ _

theorem month_range_nodup (s e : PyDate) : (month_range s e).Nodup := by
  have hch := month_range_chain s e
  haveI : IsTrans (Nat × Nat) (fun p q : Nat × Nat => 12 * p.1 + p.2 < 12 * q.1 + q.2) :=
    ⟨fun a b c hab hbc => by omega⟩
  have hp : (month_range s e).Pairwise (fun p q : Nat × Nat => 12 * p.1 + p.2 < 12 * q.1 + q.2) :=
    List.chain'_iff_pairwise.mp hch
  exact List.Pairwise.imp (by
    intro a b hlt
    intro heq
    rw [heq] at hlt
    omega) hp

/-- C2: for a Monthly (`"Mensual"`) item whose bounds parse to dates with
`valid_from ≤ valid_to`, the expansion lists the months of the inclusive
range truncated to month boundaries, in strictly increasing chronological
order (hence no duplicates, exactly one entry per calendar month), and
contains no month outside the range. -/
theorem months_for_row_mensual_exact (p : Option PyDate) (s e : PyDate)
    (hs1 : 1 ≤ s.month) (hs2 : s.month ≤ 12) (he1 : 1 ≤ e.month) (he2 : e.month ≤ 12)
    (hle : dateLe s e) :
    List.Chain' (fun p q : Nat × Nat => 12 * p.1 + p.2 < 12 * q.1 + q.2)
      (months_for_row "Mensual" p (some s) (some e)) ∧
    ∀ a b : Nat,
      ((a, b) ∈ months_for_row "Mensual" p (some s) (some e) ↔
        1 ≤ b ∧ b ≤ 12 ∧ 12 * s.year + s.month ≤ 12 * a + b ∧
          12 * a + b ≤ 12 * e.year + e.month) := by
  have hform : months_for_row "Mensual" p (some s) (some e) = month_range s e := by
    unfold months_for_row
    simp
  rw [hform]
  exact ⟨month_range_chain s e, month_range_mem s e hs1 hs2 he1 he2 hle⟩

/-- Witness for C2 at a concrete window crossing a year boundary. -/
theorem months_for_row_mensual_exact_witness :
    List.Chain' (fun p q : Nat × Nat => 12 * p.1 + p.2 < 12 * q.1 + q.2)
      (months_for_row "Mensual" none (some ⟨2024, 11, 5⟩) (some ⟨2025, 2, 10⟩)) ∧
    ∀ a b : Nat,
      ((a, b) ∈ months_for_row "Mensual" none (some ⟨2024, 11, 5⟩) (some ⟨2025, 2, 10⟩) ↔
        1 ≤ b ∧ b ≤ 12 ∧ 12 * 2024 + 11 ≤ 12 * a + b ∧ 12 * a + b ≤ 12 * 2025 + 2) :=
  months_for_row_mensual_exact none ⟨2024, 11, 5⟩ ⟨2025, 2, 10⟩
    (by decide) (by decide) (by decide) (by decide) (by decide)

/-- C9: for an Annual (`"Anual"`) item whose bounds parse to dates with
`valid_from ≤ valid_to`, every expanded due (year, month) has month equal
to the anchor date's month and year within the valid window; an Annual
item with an absent or unparsable anchor date has no due periods. -/
theorem months_for_row_anual_month_matches (anchor s e : PyDate)
    (hs1 : 1 ≤ s.month) (hs2 : s.month ≤ 12) (he1 : 1 ≤ e.month) (he2 : e.month ≤ 12)
    (hle : dateLe s e) :
    (∀ a b : Nat, (a, b) ∈ months_for_row "Anual" (some anchor) (some s) (some e) →
      b = anchor.month ∧ s.year ≤ a ∧ a ≤ e.year) ∧
    ∀ i t : Option PyDate, months_for_row "Anual" none i t = [] := by
  constructor
  · intro a b hmem
    have hform : months_for_row "Anual" (some anchor) (some s) (some e)
        = (month_range s e).filter (fun ym => ym.2 == anchor.month) := by
      unfold months_for_row
      simp
    rw [hform] at hmem
    rw [List.mem_filter] at hmem
    have hb : b = anchor.month := by
      have := hmem.2
      simpa using this
    have hrange := (month_range_mem s e hs1 hs2 he1 he2 hle a b).mp hmem.1
    refine ⟨hb, ?_, ?_⟩
    · omega
    · omega
  · intro i t
    unfold months_for_row
    rcases i with _ | s2
    all_goals rcases t with _ | t2
    all_goals simp

/-- Witness for C9: an Annual item anchored in March over 2023–2025. -/
theorem months_for_row_anual_month_matches_witness :
    (∀ a b : Nat,
      (a, b) ∈ months_for_row "Anual" (some ⟨2024, 3, 15⟩) (some ⟨2023, 1, 1⟩)
        (some ⟨2025, 12, 31⟩) →
      b = 3 ∧ 2023 ≤ a ∧ a ≤ 2025) ∧
    ∀ i t : Option PyDate, months_for_row "Anual" none i t = [] :=
  months_for_row_anual_month_matches ⟨2024, 3, 15⟩ ⟨2023, 1, 1⟩ ⟨2025, 12, 31⟩
    (by decide) (by decide) (by decide) (by decide) (by decide)

/-- C8 counterexample: the due-period expansion does not default a missing
bound — with `valid_from` absent (unparsable) and `valid_to` present, a
Monthly row expands to an empty list of due periods, directly contradicting
the claim that missing bounds are defaulted rather than yielding an empty
range of due periods. -/
theorem months_for_row_missing_bound_empty_cex :
    months_for_row "Mensual" none none (some ⟨2024, 5, 10⟩) = [] := by
  unfold months_for_row
  simp

/-- C8 amended: the day-1/day-28 defaulting of missing bounds lives in the
per-month activity test `_is_active_for_month` (a missing start defaults to
day 1 and a missing end to day 28 of the queried reference month, so the
test never sees an unbounded window), while the due-period expansion
`_months_for_row` performs no defaulting: it returns an empty list of due
periods whenever either bound is absent or unparsable. -/
theorem missing_bounds_defaults_amended :
    (∀ year month : Nat, is_active_for_month none none year month = true) ∧
    (∀ t : PyDate, ∀ year month : Nat,
      is_active_for_month none (some t) year month
        = decide (dateLe ⟨year, month, 1⟩ t)) ∧
    (∀ s : PyDate, ∀ year month : Nat,
      is_active_for_month (some s) none year month
        = decide (dateLe s ⟨year, month, 28⟩)) ∧
    (∀ per : String, ∀ p i t : Option PyDate, i = none ∨ t = none →
      months_for_row per p i t = []) := by
  refine ⟨?_, ?_, ?_, ?_⟩
  · intro year month
    unfold is_active_for_month
    simp [dateLe, dateLt]
  · intro t year month
    unfold is_active_for_month
    simp [dateLe, dateLt]
  · intro s year month
    unfold is_active_for_month
    simp [dateLe, dateLt]
  · intro per p i t hmiss
    unfold months_for_row
    rcases hmiss with h | h
    all_goals subst h
    · rcases p with _ | p2
      all_goals simp
    · rcases p with _ | p2
      all_goals rcases i with _ | s2
      all_goals simp

/-- Witness for C8's amended claim at a concrete month and bound. -/
theorem missing_bounds_defaults_amended_witness :
    is_active_for_month none none 2024 5 = true ∧
    months_for_row "Mensual" none (some ⟨2024, 5, 1⟩) none = [] :=
  ⟨missing_bounds_defaults_amended.1 2024 5,
    missing_bounds_defaults_amended.2.2.2 "Mensual" none (some ⟨2024, 5, 1⟩) none (Or.inr rfl)⟩

/-! ### Data rows: items, monthly overrides -/

/-- A row of the `gastos_mensuales` sheet: `{gasto_id, year, month,
monto_presupuestado}`; `none` models a NaN amount cell. -/
structure GMRow where
  gasto_id : Nat
  year : Nat
  month : Nat
  monto_presupuestado : Option ℚ
deriving DecidableEq

/-- A row of the `ingresos_mensuales` sheet: `{ingreso_id, year, month,
monto}`; `none` models a NaN amount cell. -/
structure IMRow where
  ingreso_id : Nat
  year : Nat
  month : Nat
  monto : Option ℚ
deriving DecidableEq

/-- A row of the `gastos` sheet (a recurring expense item).  Date cells
carry their `_parse_date` result. -/
structure GastoRow where
  gasto_id : Nat
  nombre : String
  categoria : String
  monto_presupuestado : ℚ
  periodicidad : String
  fecha_pago : Option PyDate
  fecha_inicio : Option PyDate
  fecha_termino : Option PyDate
deriving DecidableEq

/-- A row of the `ingresos` sheet (a recurring income item). -/
structure IngresoRow where
  ingreso_id : Nat
  nombre : String
  monto : ℚ
  periodicidad : String
  fecha_pago : Option PyDate
  fecha_inicio : Option PyDate
  fecha_termino : Option PyDate
deriving DecidableEq

/-- `_gastos_mensuales_map_for_year` (App.py:464), observed through lookup:
the Python dict is built over the year-filtered rows in order with
last-write-wins per `(gasto_id, month)` key, and the stored value is the
row's amount with NaN coerced to 0 — i.e. the value of the last matching
row. -/
def gastos_mensuales_map_for_year (gm : List GMRow) (year gasto_id month : Nat) : Option ℚ :=
  ((gm.filter (fun r => r.year == year && r.gasto_id == gasto_id && r.month == month)).getLast?).map
    (fun r => r.monto_presupuestado.getD 0)

/-- `_ingresos_mensuales_map_for_year` (App.py:480), same observation. -/
def ingresos_mensuales_map_for_year (im : List IMRow) (year ingreso_id month : Nat) : Option ℚ :=
  ((im.filter (fun r => r.year == year && r.ingreso_id == ingreso_id && r.month == month)).getLast?).map
    (fun r => r.monto.getD 0)

/-- `_presupuesto_for_month` (App.py:496): the stored override for
`(row.gasto_id, month)` in the year map, else 0; the item's own
`monto_presupuestado` is never read. -/
def presupuesto_for_month (row : GastoRow) (year month : Nat) (gm : List GMRow) : ℚ :=
  match gastos_mensuales_map_for_year gm year row.gasto_id month with
  | some v => v
  | none => 0

/-- `_monto_ingreso_for_month` (App.py:503). -/
def monto_ingreso_for_month (row : IngresoRow) (year month : Nat) (im : List IMRow) : ℚ :=
  match ingresos_mensuales_map_for_year im year row.ingreso_id month with
  | some v => v
  | none => 0

/-- C1: the budgeted amount for an expense item in (year, month) is the
stored override row's amount when exactly one such row exists, 0 when no
row exists, and depends only on the item's id — the item's base
`monto_presupuestado` is never consulted. -/
theorem presupuesto_for_month_override_only (row : GastoRow) (year month : Nat) (gm : List GMRow) :
    (gm.filter (fun r => r.year == year && r.gasto_id == row.gasto_id && r.month == month) = [] →
      presupuesto_for_month row year month gm = 0) ∧
    (∀ r : GMRow, ∀ a : ℚ,
      gm.filter (fun r2 => r2.year == year && r2.gasto_id == row.gasto_id && r2.month == month)
        = [r] →
      r.monto_presupuestado = some a →
      presupuesto_for_month row year month gm = a) ∧
    (∀ row2 : GastoRow, row2.gasto_id = row.gasto_id →
      presupuesto_for_month row2 year month gm = presupuesto_for_month row year month gm) := by
  refine ⟨?_, ?_, ?_⟩
  · intro hempty
    unfold presupuesto_for_month gastos_mensuales_map_for_year
    rw [hempty]
    simp
  · intro r a hone ha
    unfold presupuesto_for_month gastos_mensuales_map_for_year
    rw [hone]
    simp [ha]
  · intro row2 hid
    unfold presupuesto_for_month gastos_mensuales_map_for_year
    rw [hid]

/-- Concrete override table for the C1 witness. -/
def gmWitnessTable : List GMRow :=
  [⟨1, 2024, 5, some 42⟩, ⟨2, 2024, 5, some 7⟩]

/-- Concrete expense item (base amount 999, never consulted) for the C1
witness. -/
def gastoWitnessRow : GastoRow :=
  ⟨1, "Luz", "Hogar", 999, "Mensual", none, some ⟨2024, 1, 1⟩, some ⟨2024, 12, 28⟩⟩

/-- Witness for C1: month 5 has an override row (amount 42, not the base
999); month 6 has none, so the budgeted amount is 0. -/
theorem presupuesto_for_month_override_only_witness :
    presupuesto_for_month gastoWitnessRow 2024 5 gmWitnessTable = 42 ∧
    presupuesto_for_month gastoWitnessRow 2024 6 gmWitnessTable = 0 :=
  ⟨(presupuesto_for_month_override_only gastoWitnessRow 2024 5 gmWitnessTable).2.1
      ⟨1, 2024, 5, some 42⟩ 42 (by decide) rfl,
    (presupuesto_for_month_override_only gastoWitnessRow 2024 6 gmWitnessTable).1 (by decide)⟩

/-! ### Amount parsing (`_parse_amount`, App.py:420) -/

/-- Python `str.strip()` at character level: drop whitespace at both
ends. -/
def strip_chars (cs : List Char) : List Char :=
  ((cs.dropWhile Char.isWhitespace).reverse.dropWhile Char.isWhitespace).reverse

/-- The two replacements of `_parse_amount`, in source order:
`replace(".", "")` then `replace(",", ".")`. -/
def clean_locale_chars (cs : List Char) : List Char :=
  (cs.filter (fun c => c != '.')).map (fun c => if c = ',' then '.' else c)

/-- Strip one leading sign; the Bool is true for a leading minus. -/
def parseSign : List Char → Bool × List Char
  | '-' :: rest => (true, rest)
  | '+' :: rest => (false, rest)
  | cs => (false, cs)

/-- Value of a digit string. -/
def digitsToNat (cs : List Char) : Nat :=
  cs.foldl (fun acc c => acc * 10 + (c.toNat - 48)) 0

/-- Python `float(...)` on finite decimal literals:
`[sign] digits [. digits] [(e|E) [sign] digits]` with at least one
mantissa digit and nothing trailing; anything else is a parse failure
(`ValueError`).  Special spellings (`inf`, `nan`, underscores) are outside
the amounts this program handles and are treated as failures. -/
def pyFloatOfChars (cs : List Char) : Option ℚ :=
  let sp := parseSign cs
  let ip := sp.2.takeWhile Char.isDigit
  let cs2 := sp.2.dropWhile Char.isDigit
  let fpp : List Char × List Char :=
    match cs2 with
    | '.' :: rest => (rest.takeWhile Char.isDigit, rest.dropWhile Char.isDigit)
    | _ => ([], cs2)
  if ip = [] ∧ fpp.1 = [] then none
  else
    let mant : ℚ := (digitsToNat ip : ℚ) + (digitsToNat fpp.1 : ℚ) / (10 : ℚ) ^ fpp.1.length
    let signed : ℚ := if sp.1 then -mant else mant
    match fpp.2 with
    | [] => some signed
    | c :: rest =>
      if c = 'e' ∨ c = 'E' then
        let esp := parseSign rest
        let eds := esp.2.takeWhile Char.isDigit
        if eds = [] ∨ esp.2.dropWhile Char.isDigit ≠ [] then none
        else
          let ex : ℤ := if esp.1 then -(digitsToNat eds : ℤ) else (digitsToNat eds : ℤ)
          some (signed * (10 : ℚ) ^ ex)
      else none

/-- A cell value as `_parse_amount` receives it: NaN/None, a number, or a
string. -/
inductive PyVal where
  | vnone : PyVal
  | num : ℚ → PyVal
  | str : String → PyVal
deriving DecidableEq

/-- `_parse_amount` (App.py:420): NaN → 0; strings are stripped, `""` → 0,
then dots deleted and commas turned into decimal points before a
`float(...)` parse whose failure yields 0; numbers pass through. -/
def parse_amount : PyVal → ℚ
  | PyVal.vnone => 0
  | PyVal.num q => q
  | PyVal.str s =>
    let cleaned := strip_chars s.toList
    if cleaned = [] then 0
    else
      match pyFloatOfChars (clean_locale_chars cleaned) with
      | some q => q
      | none => 0

/-- C10: amount parsing is total (always yields a rational), returns 0 for
NaN, empty/blank strings and unparsable strings, passes numbers through,
and on strings first deletes every '.' then reads ',' as the decimal
separator, so "1.5" parses to 15 and "1.234,5" to 1234.5 (= 2469/2). -/
theorem parse_amount_total_locale :
    parse_amount PyVal.vnone = 0 ∧
    parse_amount (PyVal.str "") = 0 ∧
    parse_amount (PyVal.str "   ") = 0 ∧
    (∀ q : ℚ, parse_amount (PyVal.num q) = q) ∧
    (∀ s : String, strip_chars s.toList ≠ [] →
      parse_amount (PyVal.str s)
        = (pyFloatOfChars (clean_locale_chars (strip_chars s.toList))).getD 0) ∧
    parse_amount (PyVal.str "1.5") = 15 ∧
    parse_amount (PyVal.str "1.234,5") = 2469 / 2 := by
  have h15 : parse_amount (PyVal.str "1.5")
      = ((15 : Nat) : ℚ) + ((0 : Nat) : ℚ) / (10 : ℚ) ^ (0 : Nat) := rfl
  have h12345 : parse_amount (PyVal.str "1.234,5")
      = ((1234 : Nat) : ℚ) + ((5 : Nat) : ℚ) / (10 : ℚ) ^ (1 : Nat) := rfl
  refine ⟨rfl, rfl, rfl, fun q => rfl, ?_, by rw [h15]; norm_num, by rw [h12345]; norm_num⟩
  intro s hne
  unfold parse_amount
  simp only [hne, if_neg hne]
  cases hpf : pyFloatOfChars (clean_locale_chars (strip_chars s.toList))
  all_goals simp [hpf]

/-- Witness for C10's unparsable-string case: "abc" parses to 0. -/
theorem parse_amount_total_locale_witness :
    parse_amount (PyVal.str "abc")
      = (pyFloatOfChars (clean_locale_chars (strip_chars "abc".toList))).getD 0 :=
  parse_amount_total_locale.2.2.2.2.1 "abc" (by decide)

/-! ### Payments (`pagos` sheet) and batch registration -/

/-- A row of the `pagos` sheet: `{pago_id, gasto_id, monto_real,
fecha_pago_real, estado}`. -/
structure Pago where
  pago_id : Nat
  gasto_id : Nat
  monto_real : ℚ
  fecha_pago_real : Option PyDate
  estado : String
deriving DecidableEq

/-- `_get_pago_for_month` (App.py:654): among the item's payments, in row
order, the first whose parsed stored date falls in (year, month);
unparsable dates are skipped. -/
def get_pago_for_month (pagos : List Pago) (gasto_id year month : Nat) : Option Pago :=
  (pagos.filter (fun p => p.gasto_id == gasto_id)).find? (fun p =>
    match p.fecha_pago_real with
    | some d => d.year == year && d.month == month
    | none => false)

/-- The payment-matching predicate on a single row: item matches and the
stored date falls in (year, month). -/
def is_pago_for (gasto_id year month : Nat) (p : Pago) : Bool :=
  p.gasto_id == gasto_id &&
    match p.fecha_pago_real with
    | some d => d.year == year && d.month == month
    | none => false

/-- Leap-year rule used by Python `calendar.monthrange`. -/
def is_leap (year : Nat) : Bool :=
  year % 4 == 0 && (year % 100 != 0 || year % 400 == 0)

/-- `calendar.monthrange(year, month)[1]`: number of days of the month. -/
def days_in_month (year month : Nat) : Nat :=
  if month = 2 then (if is_leap year then 29 else 28)
  else if month = 4 ∨ month = 6 ∨ month = 9 ∨ month = 11 then 30
  else 31

/-- The paid-date normalization of the save-payments handler
(App.py:1279-1302): an unparsable supplied date becomes day 1 of the
target period; a parsed date outside the target (year, month) is rewritten
into the target period with the day clamped to the month's last day; a
date already in the target period is stored as supplied. -/
def normalize_fecha_pago (parsed : Option PyDate) (year month : Nat) : PyDate :=
  match parsed with
  | none => ⟨year, month, 1⟩
  | some d =>
    if d.year = year ∧ d.month = month then d
    else ⟨year, month, min d.day (days_in_month year month)⟩

/-- `_next_id` (App.py:229): 1 on an empty id series, else max + 1. -/
def next_id (ids : List Nat) : Nat :=
  if ids = [] then 1 else ids.foldr max 0 + 1

/-- One editor row marked "pagar" in the save-payments batch: item id,
display name, entered amount and entered date (already `_parse_date`d). -/
structure RegRow where
  gasto_id : Nat
  nombre : String
  monto_real : PyVal
  fecha_pago_real : Option PyDate
deriving DecidableEq

/-- The loop of the save-payments handler (App.py:1265-1312): rows whose
(item, period) already has a stored payment are put on the skip list by
name; the others become new `Pago` rows with sequential ids, parsed
amount, normalized date and estado "Pagado".  Returns (new rows, skipped
names). -/
def register_pagos_loop (pagos : List Pago) (year month : Nat) :
    List RegRow → Nat → List Pago × List String
  | [], _ => ([], [])
  | row :: rest, nid =>
    if (get_pago_for_month pagos row.gasto_id year month).isSome then
      let r := register_pagos_loop pagos year month rest nid
      (r.1, row.nombre :: r.2)
    else
      let r := register_pagos_loop pagos year month rest (nid + 1)
      ({ pago_id := nid, gasto_id := row.gasto_id,
         monto_real := parse_amount row.monto_real,
         fecha_pago_real := some (normalize_fecha_pago row.fecha_pago_real year month),
         estado := "Pagado" } :: r.1, r.2)

/-- The whole "Guardar pagos del mes" action (App.py:1257-1326): run the
loop starting from the next free id and append the new rows to the
payment table; the skip list is reported to the caller. -/
def register_pagos (pagos : List Pago) (rows : List RegRow) (year month : Nat) :
    List Pago × List String :=
  let r := register_pagos_loop pagos year month rows (next_id (pagos.map (fun p => p.pago_id)))
  (pagos ++ r.1, r.2)

theorem register_loop_new_sound (pagos : List Pago) (year month : Nat) :
    ∀ rows : List RegRow, ∀ nid : Nat, ∀ p : Pago,
      p ∈ (register_pagos_loop pagos year month rows nid).1 →
      get_pago_for_month pagos p.gasto_id year month = none ∧
      ∃ row ∈ rows, p.gasto_id = row.gasto_id ∧
        p.fecha_pago_real = some (normalize_fecha_pago row.fecha_pago_real year month) := by
  intro rows
  induction rows with
  | nil =>
    intro nid p hp
    simp [register_pagos_loop] at hp
  | cons row rest ih =>
    intro nid p hp
    unfold register_pagos_loop at hp
    by_cases hb : (get_pago_for_month pagos row.gasto_id year month).isSome
    · rw [if_pos hb] at hp
      have := ih nid p hp
      exact ⟨this.1, by
        obtain ⟨r2, hr2, h⟩ := this.2
        exact ⟨r2, List.mem_cons_of_mem _ hr2, h⟩⟩
    · rw [if_neg hb] at hp
      rcases List.mem_cons.mp hp with heq | hmem
      · subst heq
        refine ⟨?_, row, List.mem_cons_self _ _, rfl, rfl⟩
        exact Option.not_isSome_iff_eq_none.mp hb
      · have := ih (nid + 1) p hmem
        exact ⟨this.1, by
          obtain ⟨r2, hr2, h⟩ := this.2
          exact ⟨r2, List.mem_cons_of_mem _ hr2, h⟩⟩

theorem register_loop_skip (pagos : List Pago) (year month : Nat) :
    ∀ rows : List RegRow, ∀ nid : Nat, ∀ row : RegRow, row ∈ rows →
      (get_pago_for_month pagos row.gasto_id year month).isSome →
      row.nombre ∈ (register_pagos_loop pagos year month rows nid).2 := by
  intro rows
  induction rows with
  | nil =>
    intro nid row hrow
    simp at hrow
  | cons hd rest ih =>
    intro nid row hrow hsome
    unfold register_pagos_loop
    rcases List.mem_cons.mp hrow with heq | hmem
    · subst heq
      rw [if_pos hsome]
      exact List.mem_cons_self _ _
    · by_cases hb : (get_pago_for_month pagos hd.gasto_id year month).isSome
      · rw [if_pos hb]
        exact List.mem_cons_of_mem _ (ih nid row hmem hsome)
      · rw [if_neg hb]
        exact ih (nid + 1) row hmem hsome

theorem register_loop_commit (pagos : List Pago) (year month : Nat) :
    ∀ rows : List RegRow, ∀ nid : Nat, ∀ row : RegRow, row ∈ rows →
      get_pago_for_month pagos row.gasto_id year month = none →
      ∃ p ∈ (register_pagos_loop pagos year month rows nid).1,
        p.gasto_id = row.gasto_id ∧
        p.fecha_pago_real = some (normalize_fecha_pago row.fecha_pago_real year month) := by
  intro rows
  induction rows with
  | nil =>
    intro nid row hrow
    simp at hrow
  | cons hd rest ih =>
    intro nid row hrow hnone
    unfold register_pagos_loop
    rcases List.mem_cons.mp hrow with heq | hmem
    · subst heq
      have hb : ¬ (get_pago_for_month pagos row.gasto_id year month).isSome := by
        rw [hnone]
        simp
      rw [if_neg hb]
      exact ⟨_, List.mem_cons_self _ _, rfl, rfl⟩
    · by_cases hb : (get_pago_for_month pagos hd.gasto_id year month).isSome
      · rw [if_pos hb]
        obtain ⟨p, hp, h⟩ := ih nid row hmem hnone
        exact ⟨p, hp, h⟩
      · rw [if_neg hb]
        obtain ⟨p, hp, h⟩ := ih (nid + 1) row hmem hnone
        exact ⟨p, List.mem_cons_of_mem _ hp, h⟩

/-- C3: registering a batch in which some row's (item, year, month) already
has a stored payment in that month reports that row's name on the skip
list, leaves the payment table's rows for that (item, period) exactly as
they were (the original payment, unmodified, and nothing new for it), and
still commits a payment for every batch row whose item has no existing
payment for the period. -/
theorem register_pagos_duplicate_skip
    (pagos : List Pago) (rows : List RegRow) (year month : Nat) (row : RegRow) (p0 : Pago)
    (hrow : row ∈ rows)
    (hex : get_pago_for_month pagos row.gasto_id year month = some p0) :
    row.nombre ∈ (register_pagos pagos rows year month).2 ∧
    (register_pagos pagos rows year month).1.filter (is_pago_for row.gasto_id year month)
      = pagos.filter (is_pago_for row.gasto_id year month) ∧
    (∀ row2 ∈ rows, get_pago_for_month pagos row2.gasto_id year month = none →
      ∃ p ∈ (register_pagos pagos rows year month).1,
        p.gasto_id = row2.gasto_id ∧
        p.fecha_pago_real = some (normalize_fecha_pago row2.fecha_pago_real year month)) := by
  refine ⟨?_, ?_, ?_⟩
  · have hsome : (get_pago_for_month pagos row.gasto_id year month).isSome := by
      rw [hex]
      rfl
    exact register_loop_skip pagos year month rows _ row hrow hsome
  · unfold register_pagos
    rw [List.filter_append]
    have hnil : (register_pagos_loop pagos year month rows
        (next_id (pagos.map (fun p => p.pago_id)))).1.filter
          (is_pago_for row.gasto_id year month) = [] := by
      rw [List.filter_eq_nil_iff]
      intro p hp
      have hnew := (register_loop_new_sound pagos year month rows _ p hp).1
      intro hmatch
      have hgid : p.gasto_id = row.gasto_id := by
        have := (Bool.and_elim_left hmatch)
        simpa [is_pago_for] using Nat.eq_of_beq_eq_true (by
          simpa [is_pago_for] using this)
      rw [hgid] at hnew
      rw [hnew] at hex
      exact Option.noConfusion hex
    rw [hnil, List.append_nil]
  · intro row2 hrow2 hnone
    obtain ⟨p, hp, h⟩ := register_loop_commit pagos year month rows
      (next_id (pagos.map (fun p => p.pago_id))) row2 hrow2 hnone
    exact ⟨p, by
      unfold register_pagos
      exact List.mem_append_right _ hp, h⟩

/-- Payment table for the C3 witness: item 7 already paid in March 2024. -/
def pagosWitness : List Pago :=
  [⟨1, 7, 100, some ⟨2024, 3, 5⟩, "Pagado"⟩]

/-- Batch for the C3 witness: item 7 (already paid) and item 8 (not). -/
def rowsWitness : List RegRow :=
  [⟨7, "Luz", PyVal.num 50, some ⟨2024, 3, 10⟩⟩, ⟨8, "Agua", PyVal.num 20, some ⟨2024, 3, 12⟩⟩]

/-- Witness for C3: "Luz" is skipped, March payments of item 7 are
untouched, and items without an existing payment still commit. -/
theorem register_pagos_duplicate_skip_witness :
    "Luz" ∈ (register_pagos pagosWitness rowsWitness 2024 3).2 ∧
    (register_pagos pagosWitness rowsWitness 2024 3).1.filter (is_pago_for 7 2024 3)
      = pagosWitness.filter (is_pago_for 7 2024 3) ∧
    (∀ row2 ∈ rowsWitness, get_pago_for_month pagosWitness row2.gasto_id 2024 3 = none →
      ∃ p ∈ (register_pagos pagosWitness rowsWitness 2024 3).1,
        p.gasto_id = row2.gasto_id ∧
        p.fecha_pago_real = some (normalize_fecha_pago row2.fecha_pago_real 2024 3)) :=
  register_pagos_duplicate_skip pagosWitness rowsWitness 2024 3
    ⟨7, "Luz", PyVal.num 50, some ⟨2024, 3, 10⟩⟩ ⟨1, 7, 100, some ⟨2024, 3, 5⟩, "Pagado"⟩
    (by decide) (by decide)

/-- C4: a committed payment's stored date is the supplied date when its
(year, month) equals the target period, and otherwise lands in the target
period with the day clamped to the month's last valid day; every
normalized date lies in the target (year, month). -/
theorem register_pagos_normalizes_fecha
    (pagos : List Pago) (rows : List RegRow) (year month : Nat) (row : RegRow) (d : PyDate)
    (hrow : row ∈ rows)
    (hno : get_pago_for_month pagos row.gasto_id year month = none)
    (hd : row.fecha_pago_real = some d) :
    (∀ e : PyDate, (normalize_fecha_pago (some e) year month).year = year ∧
      (normalize_fecha_pago (some e) year month).month = month) ∧
    ∃ p ∈ (register_pagos pagos rows year month).1,
      p.gasto_id = row.gasto_id ∧
      p.fecha_pago_real = some (if d.year = year ∧ d.month = month then d
        else ⟨year, month, min d.day (days_in_month year month)⟩) := by
  constructor
  · intro e
    by_cases he : e.year = year ∧ e.month = month
    · simp only [normalize_fecha_pago, if_pos he]
      exact ⟨he.1, he.2⟩
    · simp [normalize_fecha_pago, if_neg he]
  · obtain ⟨p, hp, hgid, hfecha⟩ := register_loop_commit pagos year month rows
      (next_id (pagos.map (fun p => p.pago_id))) row hrow hno
    refine ⟨p, ?_, hgid, ?_⟩
    · unfold register_pagos
      exact List.mem_append_right _ hp
    · rw [hfecha, hd]
      rfl

/-- Witness for C4 at the spec's example: period (2024, 3), supplied date
2024-02-15; the stored date is 2024-03-15 (March 2024). -/
theorem register_pagos_normalizes_fecha_witness :
    (∀ e : PyDate, (normalize_fecha_pago (some e) 2024 3).year = 2024 ∧
      (normalize_fecha_pago (some e) 2024 3).month = 3) ∧
    ∃ p ∈ (register_pagos [] [⟨7, "Luz", PyVal.num 50, some ⟨2024, 2, 15⟩⟩] 2024 3).1,
      p.gasto_id = 7 ∧
      p.fecha_pago_real = some (if (2024 : Nat) = 2024 ∧ (2 : Nat) = 3 then (⟨2024, 2, 15⟩ : PyDate)
        else ⟨2024, 3, min 15 (days_in_month 2024 3)⟩) :=
  register_pagos_normalizes_fecha [] [⟨7, "Luz", PyVal.num 50, some ⟨2024, 2, 15⟩⟩] 2024 3
    ⟨7, "Luz", PyVal.num 50, some ⟨2024, 2, 15⟩⟩ ⟨2024, 2, 15⟩
    (by decide) rfl rfl

/-! ### Creation-time append of monthly override rows -/

/-- `_append_gasto_mensual_entries` (App.py:515): expand the item's due
periods and append one row per period with the item's base amount.  The
rows are appended as-is — the function performs no lookup of existing
(gasto_id, year, month) keys. -/
def append_gasto_mensual_entries (gm : List GMRow) (g : GastoRow) : List GMRow :=
  let months := months_for_row g.periodicidad g.fecha_pago g.fecha_inicio g.fecha_termino
  if months = [] then gm
  else gm ++ months.map (fun ym => ⟨g.gasto_id, ym.1, ym.2, some g.monto_presupuestado⟩)

/-- `_append_ingreso_mensual_entries` (App.py:543): income analogue. -/
def append_ingreso_mensual_entries (im : List IMRow) (g : IngresoRow) : List IMRow :=
  let months := months_for_row g.periodicidad g.fecha_pago g.fecha_inicio g.fecha_termino
  if months = [] then im
  else im ++ months.map (fun ym => ⟨g.ingreso_id, ym.1, ym.2, some g.monto⟩)

/-- Override table for the C6 counterexample, already holding a row for
key (1, 2024, 5). -/
def gmCexTable : List GMRow :=
  [⟨1, 2024, 5, some 99⟩]

/-- Item for the C6 counterexample/witness: Monthly, due May–June 2024. -/
def gastoCexRow : GastoRow :=
  ⟨1, "Luz", "Hogar", 10, "Mensual", none, some ⟨2024, 5, 1⟩, some ⟨2024, 6, 28⟩⟩

/-- C6 counterexample: the creation-time append does not skip keys already
present — appending an item whose key (1, 2024, 5) already has a row
leaves two rows for that key, and applying the append twice differs from
applying it once (not idempotent). -/
theorem append_gasto_mensual_not_idempotent_cex :
    ((append_gasto_mensual_entries gmCexTable gastoCexRow).filter
      (fun r => r.gasto_id == 1 && r.year == 2024 && r.month == 5)).length = 2 ∧
    append_gasto_mensual_entries (append_gasto_mensual_entries gmCexTable gastoCexRow) gastoCexRow
      ≠ append_gasto_mensual_entries gmCexTable gastoCexRow := by
  decide

/-- C6 amended: the creation-time append inserts exactly one row per due
period with amount = base amount, appended unconditionally to the existing
table — it performs no existing-key check and is not idempotent (applying
it twice appends the rows twice; in the app it is only invoked with a
freshly assigned item id, and key deduplication exists only in the
migration). -/
theorem append_gasto_mensual_appends_unconditionally
    (gm : List GMRow) (g : GastoRow) (s e : PyDate)
    (hper : g.periodicidad = "Mensual")
    (hi : g.fecha_inicio = some s) (ht : g.fecha_termino = some e)
    (hs1 : 1 ≤ s.month) (hs2 : s.month ≤ 12) (he1 : 1 ≤ e.month) (he2 : e.month ≤ 12)
    (hle : dateLe s e) :
    append_gasto_mensual_entries gm g
      = gm ++ (month_range s e).map
          (fun ym => ⟨g.gasto_id, ym.1, ym.2, some g.monto_presupuestado⟩) ∧
    (month_range s e).Nodup := by
  have hmonths : months_for_row g.periodicidad g.fecha_pago g.fecha_inicio g.fecha_termino
      = month_range s e := by
    rw [hper, hi, ht]
    unfold months_for_row
    simp
  have hne : month_range s e ≠ [] := by
    intro hnil
    have := (month_range_mem s e hs1 hs2 he1 he2 hle s.year s.month).mpr
      (by
        have := dateLe_month_idx s e hs1 hs2 he1 he2 hle
        omega)
    rw [hnil] at this
    exact List.not_mem_nil _ this
  constructor
  · unfold append_gasto_mensual_entries
    rw [hmonths, if_neg hne]
  · exact month_range_nodup s e

/-- Witness for C6's amended claim: appending the concrete item to an
empty table yields exactly its two due-period rows. -/
theorem append_gasto_mensual_appends_unconditionally_witness :
    append_gasto_mensual_entries [] gastoCexRow
      = [] ++ (month_range ⟨2024, 5, 1⟩ ⟨2024, 6, 28⟩).map
          (fun ym => ⟨gastoCexRow.gasto_id, ym.1, ym.2, some gastoCexRow.monto_presupuestado⟩) ∧
    (month_range (⟨2024, 5, 1⟩ : PyDate) (⟨2024, 6, 28⟩ : PyDate)).Nodup :=
  append_gasto_mensual_appends_unconditionally [] gastoCexRow ⟨2024, 5, 1⟩ ⟨2024, 6, 28⟩
    rfl rfl rfl (by decide) (by decide) (by decide) (by decide) (by decide)

/-! ### Legacy-to-monthly migration (`_migrate_mensuales_from_base`,
App.py:571) -/

/-- The dedup key of an expense-override row. -/
def gm_key (r : GMRow) : Nat × Nat × Nat :=
  (r.gasto_id, r.year, r.month)

/-- The dedup key of an income-override row. -/
def im_key (r : IMRow) : Nat × Nat × Nat :=
  (r.ingreso_id, r.year, r.month)

/-- Inner loop of the migration over one item's due periods: skip a period
whose key is already in the `existing` set, else emit a row and add its
key.  The Python mutable set is threaded through and returned; `mk` builds
the emitted row and `keyOf` its key, as the per-sheet loops do. -/
def add_missing {α : Type} (mk : Nat × Nat → α) (keyOf : Nat × Nat → Nat × Nat × Nat) :
    List (Nat × Nat) → List (Nat × Nat × Nat) → List α × List (Nat × Nat × Nat)
  | [], ex => ([], ex)
  | ym :: rest, ex =>
    if keyOf ym ∈ ex then add_missing mk keyOf rest ex
    else
      let r := add_missing mk keyOf rest (keyOf ym :: ex)
      (mk ym :: r.1, r.2)

/-- Outer loop of the migration over the item rows, threading the same
`existing` set across items exactly as the Python set persists across the
outer `for`. -/
def collect_new {β α : Type} (monthsOf : β → List (Nat × Nat)) (mkOf : β → Nat × Nat → α)
    (keyOf : β → Nat × Nat → Nat × Nat × Nat) :
    List β → List (Nat × Nat × Nat) → List α × List (Nat × Nat × Nat)
  | [], ex => ([], ex)
  | g :: rest, ex =>
    let a := add_missing (mkOf g) (keyOf g) (monthsOf g) ex
    let r := collect_new monthsOf mkOf keyOf rest a.2
    (a.1 ++ r.1, r.2)

/-- Due periods of an expense row, as the migration recomputes them. -/
def gasto_months (g : GastoRow) : List (Nat × Nat) :=
  months_for_row g.periodicidad g.fecha_pago g.fecha_inicio g.fecha_termino

/-- Due periods of an income row. -/
def ingreso_months (g : IngresoRow) : List (Nat × Nat) :=
  months_for_row g.periodicidad g.fecha_pago g.fecha_inicio g.fecha_termino

/-- The override row the migration seeds for an expense item and period. -/
def gasto_mk (g : GastoRow) (ym : Nat × Nat) : GMRow :=
  ⟨g.gasto_id, ym.1, ym.2, some g.monto_presupuestado⟩

/-- The key the migration records for an expense item and period. -/
def gasto_keyOf (g : GastoRow) (ym : Nat × Nat) : Nat × Nat × Nat :=
  (g.gasto_id, ym.1, ym.2)

/-- The override row the migration seeds for an income item and period. -/
def ingreso_mk (g : IngresoRow) (ym : Nat × Nat) : IMRow :=
  ⟨g.ingreso_id, ym.1, ym.2, some g.monto⟩

/-- The key the migration records for an income item and period. -/
def ingreso_keyOf (g : IngresoRow) (ym : Nat × Nat) : Nat × Nat × Nat :=
  (g.ingreso_id, ym.1, ym.2)

/-- `_migrate_mensuales_from_base` (App.py:571): seed both override tables
with one row per due period of every item whose key is absent, never
touching existing rows, and report whether anything was added. -/
def migrate_mensuales_from_base (gastos : List GastoRow) (ingresos : List IngresoRow)
    (gm : List GMRow) (im : List IMRow) : List GMRow × List IMRow × Bool :=
  let ng := collect_new gasto_months gasto_mk gasto_keyOf gastos (gm.map gm_key)
  let ni := collect_new ingreso_months ingreso_mk ingreso_keyOf ingresos (im.map im_key)
  (gm ++ ng.1, im ++ ni.1, !ng.1.isEmpty || !ni.1.isEmpty)

theorem add_missing_mono {α : Type} (mk : Nat × Nat → α) (keyOf : Nat × Nat → Nat × Nat × Nat) :
    ∀ ms : List (Nat × Nat), ∀ ex : List (Nat × Nat × Nat), ∀ k : Nat × Nat × Nat,
      k ∈ ex → k ∈ (add_missing mk keyOf ms ex).2 := by
  intro ms
  induction ms with
  | nil =>
    intro ex k hk
    exact hk
  | cons ym rest ih =>
    intro ex k hk
    unfold add_missing
    by_cases hb : keyOf ym ∈ ex
    · rw [if_pos hb]
      exact ih ex k hk
    · rw [if_neg hb]
      exact ih (keyOf ym :: ex) k (List.mem_cons_of_mem _ hk)

theorem add_missing_keys {α : Type} (mk : Nat × Nat → α) (keyOf : Nat × Nat → Nat × Nat × Nat)
    (rowKey : α → Nat × Nat × Nat) (hcoh : ∀ ym : Nat × Nat, rowKey (mk ym) = keyOf ym) :
    ∀ ms : List (Nat × Nat), ∀ ex : List (Nat × Nat × Nat), ∀ k : Nat × Nat × Nat,
      (k ∈ (add_missing mk keyOf ms ex).2 ↔
        k ∈ (add_missing mk keyOf ms ex).1.map rowKey ∨ k ∈ ex) := by
  intro ms
  induction ms with
  | nil =>
    intro ex k
    simp [add_missing]
  | cons ym rest ih =>
    intro ex k
    unfold add_missing
    by_cases hb : keyOf ym ∈ ex
    · rw [if_pos hb]
      exact ih ex k
    · rw [if_neg hb]
      simp only [List.map_cons, List.mem_cons, hcoh]
      rw [ih (keyOf ym :: ex) k]
      simp only [List.mem_cons]
      tauto

theorem add_missing_covers {α : Type} (mk : Nat × Nat → α) (keyOf : Nat × Nat → Nat × Nat × Nat) :
    ∀ ms : List (Nat × Nat), ∀ ex : List (Nat × Nat × Nat), ∀ ym ∈ ms,
      keyOf ym ∈ (add_missing mk keyOf ms ex).2 := by
  intro ms
  induction ms with
  | nil =>
    intro ex ym hym
    simp at hym
  | cons hd rest ih =>
    intro ex ym hym
    unfold add_missing
    rcases List.mem_cons.mp hym with heq | hmem
    · subst heq
      by_cases hb : keyOf ym ∈ ex
      · rw [if_pos hb]
        exact add_missing_mono mk keyOf rest ex _ hb
      · rw [if_neg hb]
        exact add_missing_mono mk keyOf rest _ _ (List.mem_cons_self _ _)
    · by_cases hb : keyOf hd ∈ ex
      · rw [if_pos hb]
        exact ih ex ym hmem
      · rw [if_neg hb]
        exact ih (keyOf hd :: ex) ym hmem

theorem add_missing_new {α : Type} (mk : Nat × Nat → α) (keyOf : Nat × Nat → Nat × Nat × Nat) :
    ∀ ms : List (Nat × Nat), ∀ ex : List (Nat × Nat × Nat), ∀ a ∈ (add_missing mk keyOf ms ex).1,
      ∃ ym ∈ ms, a = mk ym ∧ keyOf ym ∉ ex := by
  intro ms
  induction ms with
  | nil =>
    intro ex a ha
    simp [add_missing] at ha
  | cons hd rest ih =>
    intro ex a ha
    unfold add_missing at ha
    by_cases hb : keyOf hd ∈ ex
    · rw [if_pos hb] at ha
      obtain ⟨ym, hym, h⟩ := ih ex a ha
      exact ⟨ym, List.mem_cons_of_mem _ hym, h⟩
    · rw [if_neg hb] at ha
      rcases List.mem_cons.mp ha with heq | hmem
      · exact ⟨hd, List.mem_cons_self _ _, heq, hb⟩
      · obtain ⟨ym, hym, heq, hnot⟩ := ih (keyOf hd :: ex) a hmem
        exact ⟨ym, List.mem_cons_of_mem _ hym, heq, fun hk => hnot (List.mem_cons_of_mem _ hk)⟩

theorem add_missing_noop {α : Type} (mk : Nat × Nat → α) (keyOf : Nat × Nat → Nat × Nat × Nat) :
    ∀ ms : List (Nat × Nat), ∀ ex : List (Nat × Nat × Nat),
      (∀ ym ∈ ms, keyOf ym ∈ ex) → add_missing mk keyOf ms ex = ([], ex) := by
  intro ms
  induction ms with
  | nil =>
    intro ex _
    rfl
  | cons hd rest ih =>
    intro ex hall
    unfold add_missing
    rw [if_pos (hall hd (List.mem_cons_self _ _))]
    exact ih ex (fun ym hym => hall ym (List.mem_cons_of_mem _ hym))

theorem collect_new_keys {β α : Type} (monthsOf : β → List (Nat × Nat))
    (mkOf : β → Nat × Nat → α) (keyOf : β → Nat × Nat → Nat × Nat × Nat)
    (rowKey : α → Nat × Nat × Nat)
    (hcoh : ∀ g : β, ∀ ym : Nat × Nat, rowKey (mkOf g ym) = keyOf g ym) :
    ∀ gs : List β, ∀ ex : List (Nat × Nat × Nat), ∀ k : Nat × Nat × Nat,
      (k ∈ (collect_new monthsOf mkOf keyOf gs ex).2 ↔
        k ∈ (collect_new monthsOf mkOf keyOf gs ex).1.map rowKey ∨ k ∈ ex) := by
  intro gs
  induction gs with
  | nil =>
    intro ex k
    simp [collect_new]
  | cons g rest ih =>
    intro ex k
    unfold collect_new
    simp only [List.map_append, List.mem_append]
    rw [ih _ k]
    rw [add_missing_keys (mkOf g) (keyOf g) rowKey (hcoh g) _ ex k]
    tauto

theorem collect_new_covers {β α : Type} (monthsOf : β → List (Nat × Nat))
    (mkOf : β → Nat × Nat → α) (keyOf : β → Nat × Nat → Nat × Nat × Nat)
    (rowKey : α → Nat × Nat × Nat)
    (hcoh : ∀ g : β, ∀ ym : Nat × Nat, rowKey (mkOf g ym) = keyOf g ym) :
    ∀ gs : List β, ∀ ex : List (Nat × Nat × Nat), ∀ g ∈ gs, ∀ ym ∈ monthsOf g,
      keyOf g ym ∈ (collect_new monthsOf mkOf keyOf gs ex).2 := by
  intro gs
  induction gs with
  | nil =>
    intro ex g hg
    simp at hg
  | cons hd rest ih =>
    intro ex g hg ym hym
    unfold collect_new
    rcases List.mem_cons.mp hg with heq | hmem
    · subst heq
      have hkey := add_missing_covers (mkOf g) (keyOf g) (monthsOf g) ex ym hym
      exact (collect_new_keys monthsOf mkOf keyOf rowKey hcoh rest _ _).mpr (Or.inr hkey)
    · exact ih _ g hmem ym hym

theorem collect_new_rows {β α : Type} (monthsOf : β → List (Nat × Nat))
    (mkOf : β → Nat × Nat → α) (keyOf : β → Nat × Nat → Nat × Nat × Nat)
    (rowKey : α → Nat × Nat × Nat)
    (hcoh : ∀ g : β, ∀ ym : Nat × Nat, rowKey (mkOf g ym) = keyOf g ym) :
    ∀ gs : List β, ∀ ex : List (Nat × Nat × Nat), ∀ r ∈ (collect_new monthsOf mkOf keyOf gs ex).1,
      rowKey r ∉ ex ∧ ∃ g ∈ gs, ∃ ym ∈ monthsOf g, r = mkOf g ym := by
  intro gs
  induction gs with
  | nil =>
    intro ex r hr
    simp [collect_new] at hr
  | cons hd rest ih =>
    intro ex r hr
    unfold collect_new at hr
    rcases List.mem_append.mp hr with hin | hin
    · obtain ⟨ym, hym, heq, hnot⟩ := add_missing_new (mkOf hd) (keyOf hd) (monthsOf hd) ex r hin
      refine ⟨?_, hd, List.mem_cons_self _ _, ym, hym, heq⟩
      rw [heq, hcoh]
      exact hnot
    · obtain ⟨hnot, g, hg, ym, hym, heq⟩ := ih _ r hin
      refine ⟨?_, g, List.mem_cons_of_mem _ hg, ym, hym, heq⟩
      intro hk
      exact hnot (add_missing_mono (mkOf hd) (keyOf hd) (monthsOf hd) ex _ hk)

theorem collect_new_noop {β α : Type} (monthsOf : β → List (Nat × Nat))
    (mkOf : β → Nat × Nat → α) (keyOf : β → Nat × Nat → Nat × Nat × Nat) :
    ∀ gs : List β, ∀ ex : List (Nat × Nat × Nat),
      (∀ g ∈ gs, ∀ ym ∈ monthsOf g, keyOf g ym ∈ ex) →
      collect_new monthsOf mkOf keyOf gs ex = ([], ex) := by
  intro gs
  induction gs with
  | nil =>
    intro ex _
    rfl
  | cons hd rest ih =>
    intro ex hall
    unfold collect_new
    have ha := add_missing_noop (mkOf hd) (keyOf hd) (monthsOf hd) ex
      (hall hd (List.mem_cons_self _ _))
    have hr := ih ex (fun g hg ym hym => hall g (List.mem_cons_of_mem _ hg) ym hym)
    simp [ha, hr]

theorem append_eq_self_iff {α : Type} (l t : List α) : l ++ t = l ↔ t = [] := by
  constructor
  · intro h
    have hlen := congrArg List.length h
    simp only [List.length_append] at hlen
    have : t.length = 0 := by omega
    exact List.length_eq_zero.mp this
  · intro h
    simp [h]

theorem migrate_eq (gastos : List GastoRow) (ingresos : List IngresoRow)
    (gm : List GMRow) (im : List IMRow) :
    migrate_mensuales_from_base gastos ingresos gm im
      = (gm ++ (collect_new gasto_months gasto_mk gasto_keyOf gastos (gm.map gm_key)).1,
         im ++ (collect_new ingreso_months ingreso_mk ingreso_keyOf ingresos (im.map im_key)).1,
         !(collect_new gasto_months gasto_mk gasto_keyOf gastos (gm.map gm_key)).1.isEmpty
           || !(collect_new ingreso_months ingreso_mk ingreso_keyOf ingresos
                  (im.map im_key)).1.isEmpty) := rfl

/-- C7: the migration appends to each override table one row per due
period of each item whose (id, year, month) key was absent, seeded from
the item's base amount; it never modifies or removes existing rows (the
originals stay as a prefix, untouched); afterwards every due-period key of
every item is present; the changed flag is true iff some row was added;
and running the migration again on its own output is a no-op returning
changed = false. -/
theorem migrate_mensuales_from_base_spec
    (gastos : List GastoRow) (ingresos : List IngresoRow) (gm : List GMRow) (im : List IMRow) :
    (∃ ns : List GMRow,
      (migrate_mensuales_from_base gastos ingresos gm im).1 = gm ++ ns ∧
      ∀ r ∈ ns, gm_key r ∉ gm.map gm_key ∧
        ∃ g ∈ gastos, r.gasto_id = g.gasto_id ∧
          r.monto_presupuestado = some g.monto_presupuestado ∧
          (r.year, r.month) ∈ gasto_months g) ∧
    (∃ ns : List IMRow,
      (migrate_mensuales_from_base gastos ingresos gm im).2.1 = im ++ ns ∧
      ∀ r ∈ ns, im_key r ∉ im.map im_key ∧
        ∃ g ∈ ingresos, r.ingreso_id = g.ingreso_id ∧
          r.monto = some g.monto ∧
          (r.year, r.month) ∈ ingreso_months g) ∧
    (∀ g ∈ gastos, ∀ ym ∈ gasto_months g,
      (g.gasto_id, ym.1, ym.2)
        ∈ (migrate_mensuales_from_base gastos ingresos gm im).1.map gm_key) ∧
    (∀ g ∈ ingresos, ∀ ym ∈ ingreso_months g,
      (g.ingreso_id, ym.1, ym.2)
        ∈ (migrate_mensuales_from_base gastos ingresos gm im).2.1.map im_key) ∧
    ((migrate_mensuales_from_base gastos ingresos gm im).2.2 = true ↔
      (migrate_mensuales_from_base gastos ingresos gm im).1 ≠ gm ∨
      (migrate_mensuales_from_base gastos ingresos gm im).2.1 ≠ im) ∧
    migrate_mensuales_from_base gastos ingresos
        (migrate_mensuales_from_base gastos ingresos gm im).1
        (migrate_mensuales_from_base gastos ingresos gm im).2.1
      = ((migrate_mensuales_from_base gastos ingresos gm im).1,
         (migrate_mensuales_from_base gastos ingresos gm im).2.1, false) := by
  have hcohG : ∀ g : GastoRow, ∀ ym : Nat × Nat, gm_key (gasto_mk g ym) = gasto_keyOf g ym :=
    fun g ym => rfl
  have hcohI : ∀ g : IngresoRow, ∀ ym : Nat × Nat, im_key (ingreso_mk g ym) = ingreso_keyOf g ym :=
    fun g ym => rfl
  rw [migrate_eq]
  refine ⟨?_, ?_, ?_, ?_, ?_, ?_⟩
  · refine ⟨(collect_new gasto_months gasto_mk gasto_keyOf gastos (gm.map gm_key)).1, rfl, ?_⟩
    intro r hr
    obtain ⟨hnot, g, hg, ym, hym, heq⟩ :=
      collect_new_rows gasto_months gasto_mk gasto_keyOf gm_key hcohG gastos (gm.map gm_key) r hr
    refine ⟨hnot, g, hg, ?_, ?_, ?_⟩
    · rw [heq]
      rfl
    · rw [heq]
      rfl
    · rw [heq]
      exact hym
  · refine ⟨(collect_new ingreso_months ingreso_mk ingreso_keyOf ingresos (im.map im_key)).1,
      rfl, ?_⟩
    intro r hr
    obtain ⟨hnot, g, hg, ym, hym, heq⟩ :=
      collect_new_rows ingreso_months ingreso_mk ingreso_keyOf im_key hcohI ingresos
        (im.map im_key) r hr
    refine ⟨hnot, g, hg, ?_, ?_, ?_⟩
    · rw [heq]
      rfl
    · rw [heq]
      rfl
    · rw [heq]
      exact hym
  · intro g hg ym hym
    have hkey := collect_new_covers gasto_months gasto_mk gasto_keyOf gm_key hcohG gastos
      (gm.map gm_key) g hg ym hym
    have := (collect_new_keys gasto_months gasto_mk gasto_keyOf gm_key hcohG gastos
      (gm.map gm_key) (gasto_keyOf g ym)).mp hkey
    rw [List.map_append, List.mem_append]
    tauto
  · intro g hg ym hym
    have hkey := collect_new_covers ingreso_months ingreso_mk ingreso_keyOf im_key hcohI ingresos
      (im.map im_key) g hg ym hym
    have := (collect_new_keys ingreso_months ingreso_mk ingreso_keyOf im_key hcohI ingresos
      (im.map im_key) (ingreso_keyOf g ym)).mp hkey
    rw [List.map_append, List.mem_append]
    tauto
  · simp only [append_eq_self_iff, ne_eq]
    cases hG : (collect_new gasto_months gasto_mk gasto_keyOf gastos (gm.map gm_key)).1
    all_goals cases hI : (collect_new ingreso_months ingreso_mk ingreso_keyOf ingresos
      (im.map im_key)).1
    all_goals simp
  · have hallG : ∀ g ∈ gastos, ∀ ym ∈ gasto_months g,
        gasto_keyOf g ym
          ∈ ((gm ++ (collect_new gasto_months gasto_mk gasto_keyOf gastos
              (gm.map gm_key)).1).map gm_key) := by
      intro g hg ym hym
      have hkey := collect_new_covers gasto_months gasto_mk gasto_keyOf gm_key hcohG gastos
        (gm.map gm_key) g hg ym hym
      have := (collect_new_keys gasto_months gasto_mk gasto_keyOf gm_key hcohG gastos
        (gm.map gm_key) (gasto_keyOf g ym)).mp hkey
      rw [List.map_append, List.mem_append]
      tauto
    have hallI : ∀ g ∈ ingresos, ∀ ym ∈ ingreso_months g,
        ingreso_keyOf g ym
          ∈ ((im ++ (collect_new ingreso_months ingreso_mk ingreso_keyOf ingresos
              (im.map im_key)).1).map im_key) := by
      intro g hg ym hym
      have hkey := collect_new_covers ingreso_months ingreso_mk ingreso_keyOf im_key hcohI
        ingresos (im.map im_key) g hg ym hym
      have := (collect_new_keys ingreso_months ingreso_mk ingreso_keyOf im_key hcohI ingresos
        (im.map im_key) (ingreso_keyOf g ym)).mp hkey
      rw [List.map_append, List.mem_append]
      tauto
    have hnoopG := collect_new_noop gasto_months gasto_mk gasto_keyOf gastos
      ((gm ++ (collect_new gasto_months gasto_mk gasto_keyOf gastos (gm.map gm_key)).1).map
        gm_key) hallG
    have hnoopI := collect_new_noop ingreso_months ingreso_mk ingreso_keyOf ingresos
      ((im ++ (collect_new ingreso_months ingreso_mk ingreso_keyOf ingresos
          (im.map im_key)).1).map im_key) hallI
    rw [migrate_eq, hnoopG, hnoopI]
    simp

/-! ### Balance projection (Balance page, App.py:1537-1599) -/

/-- The per-user dataset snapshot the page operates on. -/
structure Dataset where
  gastos : List GastoRow
  ingresos : List IngresoRow
  pagos : List Pago
  gastos_mensuales : List GMRow
  ingresos_mensuales : List IMRow
deriving DecidableEq

/-- Per-month budgeted-expense total: sum of `_presupuesto_for_month` over
the expense items (App.py:1539-1546). -/
def total_gastos_mes (gastos : List GastoRow) (gm : List GMRow) (year month : Nat) : ℚ :=
  (gastos.map (fun row => presupuesto_for_month row year month gm)).sum

/-- Per-month income total: sum of `_monto_ingreso_for_month` over the
income items (App.py:1547-1554). -/
def total_ingresos_mes (ingresos : List IngresoRow) (im : List IMRow) (year month : Nat) : ℚ :=
  (ingresos.map (fun row => monto_ingreso_for_month row year month im)).sum

/-- The balance projection of the Balance page (App.py:1537-1557): start
balance plus, for each month of `range(fromM, toM + 1)`, income total
minus budgeted-expense total.  The page instantiates it with the current
month through 12 and with 1 through 12 of the next year. -/
def project_balance (d : Dataset) (saldo : ℚ) (year fromM toM : Nat) : ℚ :=
  saldo + ((List.range' fromM (toM + 1 - fromM)).map (fun m =>
    total_ingresos_mes d.ingresos d.ingresos_mensuales year m
      - total_gastos_mes d.gastos d.gastos_mensuales year m)).sum

theorem sum_map_filter_split {α : Type} (p : α → Bool) (f : α → ℚ) (l : List α) :
    ((l.filter p).map f).sum + ((l.filter (fun a => !(p a))).map f).sum = (l.map f).sum := by
  induction l with
  | nil => simp
  | cons hd tl ih =>
    cases hp : p hd
    · rw [List.filter_cons_of_neg (by simp [hp]), List.filter_cons_of_pos (by simp [hp])]
      simp only [List.map_cons, List.sum_cons]
      rw [← ih]
      ring
    · rw [List.filter_cons_of_pos (by simp [hp]), List.filter_cons_of_neg (by simp [hp])]
      simp only [List.map_cons, List.sum_cons]
      rw [← ih]
      ring

theorem filter_key_singleton {α : Type} (key : α → Nat) (g : Nat) :
    ∀ rows : List α, (rows.map key).Nodup →
      rows.filter (fun r => key r == g) = [] ∨
        ∃ a, rows.filter (fun r => key r == g) = [a] := by
  intro rows
  induction rows with
  | nil =>
    intro _
    exact Or.inl rfl
  | cons hd tl ih =>
    intro hnd
    simp only [List.map_cons, List.nodup_cons] at hnd
    by_cases hp : key hd = g
    · right
      refine ⟨hd, ?_⟩
      have hfil : tl.filter (fun r => key r == g) = [] := by
        rw [List.filter_eq_nil_iff]
        intro r hr hbeq
        have hkr : key r = g := beq_iff_eq.mp hbeq
        exact hnd.1 (by
          rw [List.mem_map]
          exact ⟨r, hr, by rw [hkr, hp]⟩)
      rw [List.filter_cons]
      simp [beq_iff_eq.mpr hp, hfil]
    · rw [List.filter_cons]
      have hb : (key hd == g) = false := beq_eq_false_iff_ne.mpr hp
      simp only [hb, Bool.false_eq_true, if_false]
      exact ih hnd.2

theorem sum_lookup_rows {α : Type} (key : α → Nat) (val : α → ℚ) :
    ∀ ids : List Nat, ∀ rows : List α,
      ids.Nodup → (∀ r ∈ rows, key r ∈ ids) → (rows.map key).Nodup →
      (ids.map (fun g =>
        ((rows.filter (fun r => key r == g)).getLast?.map val).getD 0)).sum
        = (rows.map val).sum := by
  intro ids
  induction ids with
  | nil =>
    intro rows _ hcov _
    cases rows with
    | nil => simp
    | cons hd tl => exact absurd (hcov hd (List.mem_cons_self _ _)) (List.not_mem_nil _)
  | cons g rest ih =>
    intro rows hnd hcov hkeys
    simp only [List.nodup_cons] at hnd
    simp only [List.map_cons, List.sum_cons]
    have hrest : ∀ g2 ∈ rest,
        ((rows.filter (fun r => key r == g2)).getLast?.map val).getD 0
          = (((rows.filter (fun r => !(key r == g))).filter
              (fun r => key r == g2)).getLast?.map val).getD 0 := by
      intro g2 hg2
      rw [List.filter_filter]
      have hpred : rows.filter (fun r => key r == g2)
          = rows.filter (fun r => key r == g2 && !(key r == g)) := by
        apply List.filter_congr
        intro r _
        by_cases h2 : key r = g2
        · have hne : key r ≠ g := by
            intro he
            have hgg : g2 = g := by rw [← h2, he]
            exact hnd.1 (hgg ▸ hg2)
          simp [beq_iff_eq.mpr h2, beq_eq_false_iff_ne.mpr hne]
        · simp [beq_eq_false_iff_ne.mpr h2]
      rw [← hpred]
    rw [List.map_congr_left hrest]
    have hBcov : ∀ r ∈ rows.filter (fun r => !(key r == g)), key r ∈ rest := by
      intro r hr
      rw [List.mem_filter] at hr
      have h2 : key r ≠ g := by
        have hb := hr.2
        simp only [Bool.not_eq_true'] at hb
        exact beq_eq_false_iff_ne.mp hb
      rcases List.mem_cons.mp (hcov r hr.1) with he | hm
      · exact absurd he h2
      · exact hm
    have hBkeys : ((rows.filter (fun r => !(key r == g))).map key).Nodup :=
      List.Nodup.sublist (List.Sublist.map key (List.filter_sublist rows)) hkeys
    rw [ih _ hnd.2 hBcov hBkeys]
    rcases filter_key_singleton key g rows hkeys with hA | ⟨a, hA⟩
    · have hsplit := sum_map_filter_split (fun r => key r == g) val rows
      rw [hA] at hsplit
      simp only [List.map_nil, List.sum_nil, zero_add] at hsplit
      rw [hA, hsplit]
      simp
    · have hsplit := sum_map_filter_split (fun r => key r == g) val rows
      rw [hA] at hsplit
      simp only [List.map_cons, List.map_nil, List.sum_cons, List.sum_nil, add_zero] at hsplit
      rw [hA, List.getLast?_singleton]
      have hval : ((some a).map val).getD 0 = val a := rfl
      rw [hval]
      linarith [hsplit]

theorem filter_composite {α : Type} (idR y mo : α → Nat) (l : List α) (year gid month : Nat) :
    l.filter (fun r => y r == year && idR r == gid && mo r == month)
      = (l.filter (fun r => y r == year && mo r == month)).filter (fun r => idR r == gid) := by
  rw [List.filter_filter]
  apply List.filter_congr
  intro r _
  cases h1 : (y r == year)
  all_goals cases h2 : (idR r == gid)
  all_goals cases h3 : (mo r == month)
  all_goals simp [h1, h2, h3]

theorem nodup_filter_map_of_key_nodup {α : Type} (idR y mo : α → Nat) (year month : Nat) :
    ∀ l : List α, (l.map (fun r => (idR r, y r, mo r))).Nodup →
      ((l.filter (fun r => y r == year && mo r == month)).map idR).Nodup := by
  intro l
  induction l with
  | nil =>
    intro _
    simp
  | cons hd tl ih =>
    intro h
    simp only [List.map_cons, List.nodup_cons] at h
    by_cases hp : (y hd == year && mo hd == month) = true
    · rw [List.filter_cons, if_pos hp]
      simp only [List.map_cons, List.nodup_cons]
      refine ⟨?_, ih h.2⟩
      intro hmem
      rw [List.mem_map] at hmem
      obtain ⟨r, hr, heq⟩ := hmem
      rw [List.mem_filter] at hr
      apply h.1
      rw [List.mem_map]
      refine ⟨r, hr.1, ?_⟩
      have hy1 : y hd = year := beq_iff_eq.mp (Bool.and_elim_left hp)
      have hm1 : mo hd = month := beq_iff_eq.mp (Bool.and_elim_right hp)
      have hy2 : y r = year := beq_iff_eq.mp (Bool.and_elim_left hr.2)
      have hm2 : mo r = month := beq_iff_eq.mp (Bool.and_elim_right hr.2)
      rw [heq, hy1, hm1, hy2, hm2]
    · rw [List.filter_cons, if_neg hp]
      exact ih h.2

theorem sum_override_month {α β : Type} (idI : β → Nat) (idR y mo : α → Nat) (am : α → ℚ)
    (items : List β) (tbl : List α) (year month : Nat)
    (hids : (items.map idI).Nodup)
    (hkeys : (tbl.map (fun r => (idR r, y r, mo r))).Nodup)
    (hcov : ∀ r ∈ tbl, ∃ g ∈ items, idI g = idR r) :
    (items.map (fun g =>
      (((tbl.filter (fun r => y r == year && idR r == idI g && mo r == month)).getLast?).map
        am).getD 0)).sum
      = ((tbl.filter (fun r => y r == year && mo r == month)).map am).sum := by
  have hstep : ∀ g ∈ items,
      (((tbl.filter (fun r => y r == year && idR r == idI g && mo r == month)).getLast?).map
        am).getD 0
        = ((((tbl.filter (fun r => y r == year && mo r == month)).filter
            (fun r => idR r == idI g)).getLast?).map am).getD 0 := by
    intro g _
    rw [filter_composite]
  rw [List.map_congr_left hstep]
  have hmm : items.map (fun g =>
      ((((tbl.filter (fun r => y r == year && mo r == month)).filter
        (fun r => idR r == idI g)).getLast?).map am).getD 0)
      = (items.map idI).map (fun gid =>
        ((((tbl.filter (fun r => y r == year && mo r == month)).filter
          (fun r => idR r == gid)).getLast?).map am).getD 0) := by
    rw [List.map_map]
    rfl
  rw [hmm]
  apply sum_lookup_rows idR am (items.map idI)
      (tbl.filter (fun r => y r == year && mo r == month)) hids
  · intro r hr
    rw [List.mem_filter] at hr
    obtain ⟨g, hg, hid⟩ := hcov r hr.1
    rw [List.mem_map]
    exact ⟨g, hg, hid⟩
  · exact nodup_filter_map_of_key_nodup idR y mo year month tbl hkeys

theorem presupuesto_eq_lookup (row : GastoRow) (year month : Nat) (gm : List GMRow) :
    presupuesto_for_month row year month gm
      = (((gm.filter (fun r =>
          r.year == year && r.gasto_id == row.gasto_id && r.month == month)).getLast?).map
          (fun r => r.monto_presupuestado.getD 0)).getD 0 := by
  unfold presupuesto_for_month gastos_mensuales_map_for_year
  cases hx : (gm.filter (fun r =>
      r.year == year && r.gasto_id == row.gasto_id && r.month == month)).getLast?
  all_goals simp [hx]

theorem monto_ingreso_eq_lookup (row : IngresoRow) (year month : Nat) (im : List IMRow) :
    monto_ingreso_for_month row year month im
      = (((im.filter (fun r =>
          r.year == year && r.ingreso_id == row.ingreso_id && r.month == month)).getLast?).map
          (fun r => r.monto.getD 0)).getD 0 := by
  unfold monto_ingreso_for_month ingresos_mensuales_map_for_year
  cases hx : (im.filter (fun r =>
      r.year == year && r.ingreso_id == row.ingreso_id && r.month == month)).getLast?
  all_goals simp [hx]

theorem total_gastos_mes_eq (gastos : List GastoRow) (gm : List GMRow) (year month : Nat)
    (hids : (gastos.map (fun g => g.gasto_id)).Nodup)
    (hkeys : (gm.map gm_key).Nodup)
    (hcov : ∀ r ∈ gm, ∃ g ∈ gastos, g.gasto_id = r.gasto_id) :
    total_gastos_mes gastos gm year month
      = ((gm.filter (fun r => r.year == year && r.month == month)).map
          (fun r => r.monto_presupuestado.getD 0)).sum := by
  unfold total_gastos_mes
  rw [List.map_congr_left (fun row _ => presupuesto_eq_lookup row year month gm)]
  exact sum_override_month (fun g => g.gasto_id) (fun r => r.gasto_id) (fun r => r.year)
    (fun r => r.month) (fun r => r.monto_presupuestado.getD 0) gastos gm year month hids hkeys hcov

theorem total_ingresos_mes_eq (ingresos : List IngresoRow) (im : List IMRow) (year month : Nat)
    (hids : (ingresos.map (fun g => g.ingreso_id)).Nodup)
    (hkeys : (im.map im_key).Nodup)
    (hcov : ∀ r ∈ im, ∃ g ∈ ingresos, g.ingreso_id = r.ingreso_id) :
    total_ingresos_mes ingresos im year month
      = ((im.filter (fun r => r.year == year && r.month == month)).map
          (fun r => r.monto.getD 0)).sum := by
  unfold total_ingresos_mes
  rw [List.map_congr_left (fun row _ => monto_ingreso_eq_lookup row year month im)]
  exact sum_override_month (fun g => g.ingreso_id) (fun r => r.ingreso_id) (fun r => r.year)
    (fun r => r.month) (fun r => r.monto.getD 0) ingresos im year month hids hkeys hcov

/-- C5: the projected balance never reads the payment table (replacing the
recorded payments changes nothing), and — when item ids are unique,
override keys are unique and every override row references an existing
item — it equals the start balance plus, over the months of the range, the
total income-override amounts minus the total expense-override amounts. -/
theorem project_balance_overrides_only (d : Dataset) (saldo : ℚ) (year fromM toM : Nat)
    (hgids : (d.gastos.map (fun g => g.gasto_id)).Nodup)
    (higids : (d.ingresos.map (fun g => g.ingreso_id)).Nodup)
    (hgkeys : (d.gastos_mensuales.map gm_key).Nodup)
    (hikeys : (d.ingresos_mensuales.map im_key).Nodup)
    (hgcov : ∀ r ∈ d.gastos_mensuales, ∃ g ∈ d.gastos, g.gasto_id = r.gasto_id)
    (hicov : ∀ r ∈ d.ingresos_mensuales, ∃ g ∈ d.ingresos, g.ingreso_id = r.ingreso_id) :
    (∀ pagos2 : List Pago,
      project_balance { d with pagos := pagos2 } saldo year fromM toM
        = project_balance d saldo year fromM toM) ∧
    project_balance d saldo year fromM toM
      = saldo + ((List.range' fromM (toM + 1 - fromM)).map (fun m =>
          ((d.ingresos_mensuales.filter (fun r => r.year == year && r.month == m)).map
            (fun r => r.monto.getD 0)).sum
          - ((d.gastos_mensuales.filter (fun r => r.year == year && r.month == m)).map
            (fun r => r.monto_presupuestado.getD 0)).sum)).sum := by
  constructor
  · intro pagos2
    rfl
  · unfold project_balance
    congr 1
    apply congrArg
    apply List.map_congr_left
    intro m _
    rw [total_ingresos_mes_eq d.ingresos d.ingresos_mensuales year m higids hikeys hicov]
    rw [total_gastos_mes_eq d.gastos d.gastos_mensuales year m hgids hgkeys hgcov]

/-- Dataset for the C5 witness: one income item with 50-overrides and one
expense item with 30-overrides for months 6–12 of 2025. -/
def datasetWitness : Dataset :=
  { gastos := [⟨1, "Arriendo", "Hogar", 30, "Mensual", none, some ⟨2025, 6, 1⟩,
      some ⟨2025, 12, 28⟩⟩],
    ingresos := [⟨1, "Sueldo", 50, "Mensual", none, some ⟨2025, 6, 1⟩, some ⟨2025, 12, 28⟩⟩],
    pagos := [],
    gastos_mensuales := [⟨1, 2025, 6, some 30⟩, ⟨1, 2025, 7, some 30⟩, ⟨1, 2025, 8, some 30⟩,
      ⟨1, 2025, 9, some 30⟩, ⟨1, 2025, 10, some 30⟩, ⟨1, 2025, 11, some 30⟩,
      ⟨1, 2025, 12, some 30⟩],
    ingresos_mensuales := [⟨1, 2025, 6, some 50⟩, ⟨1, 2025, 7, some 50⟩, ⟨1, 2025, 8, some 50⟩,
      ⟨1, 2025, 9, some 50⟩, ⟨1, 2025, 10, some 50⟩, ⟨1, 2025, 11, some 50⟩,
      ⟨1, 2025, 12, some 50⟩] }

/-- Witness for C5 at the spec's example: start balance 100, months 6–12,
income 50/month and budgeted expense 30/month give 100 + 7·(50−30) = 240. -/
theorem project_balance_overrides_only_witness :
    project_balance datasetWitness 100 2025 6 12 = 240 := by
  have h := (project_balance_overrides_only datasetWitness 100 2025 6 12
    (by decide) (by decide) (by decide) (by decide) (by decide) (by decide)).2
  rw [h]
  simp +decide [datasetWitness, List.range']
  norm_num

end Ordenate
